import Mathlib

/-!
Shallow embedding of `src/core/thread/topology.hpp` from the OpenThread
repository: the neighbor/topology table data model (`Neighbor`, `Child`,
`Router`), the neighbor state machine, replay protection, indirect
(buffered) message delivery for sleepy children, and table allocation.

Definitions marked `Modelled from the spec:` embed behaviour that the
repository implements outside this header (only declarations are in
`topology.hpp`); they follow the specification's wording.
-/

namespace Thread

/-- Neighbor link states, from `enum Neighbor::State` in topology.hpp.
The enumerators take the default C++ values 0..6 in declaration order. -/
inductive State where
  | kStateInvalid
  | kStateRestored
  | kStateParentRequest
  | kStateChildIdRequest
  | kStateLinkRequest
  | kStateChildUpdateRequest
  | kStateValid
  deriving DecidableEq, Repr

/-- The numeric value of each enumerator (C++ default enum numbering). -/
def State.toNat : State → Nat
  | .kStateInvalid => 0
  | .kStateRestored => 1
  | .kStateParentRequest => 2
  | .kStateChildIdRequest => 3
  | .kStateLinkRequest => 4
  | .kStateChildUpdateRequest => 5
  | .kStateValid => 6

/-- Decode a numeric value back to a `State`, as reading the 3-bit
bitfield `mState : 3` does; values with no enumerator decode to none. -/
def State.decode : Nat → Option State
  | 0 => some .kStateInvalid
  | 1 => some .kStateRestored
  | 2 => some .kStateParentRequest
  | 3 => some .kStateChildIdRequest
  | 4 => some .kStateLinkRequest
  | 5 => some .kStateChildUpdateRequest
  | 6 => some .kStateValid
  | _ => none

/-- Storing a state into the 3-bit bitfield `State mState : 3` keeps only
the low 3 bits of its numeric value. -/
def State.store3 (s : State) : Nat := s.toNat % 8

/-- The `mValid` member of the anonymous union in `Neighbor`: the payload
meaningful while attached (link frame counter, MLE frame counter, RLOC16). -/
structure ValidInfo where
  mLinkFrameCounter : Nat
  mMleFrameCounter : Nat
  mRloc16 : Nat
  deriving DecidableEq, Repr

/-- The `mPending` member of the anonymous union in `Neighbor`: the payload
meaningful during the attach handshake (challenge bytes and length). -/
structure PendingInfo where
  mChallenge : List Nat
  mChallengeLength : Nat
  deriving DecidableEq, Repr

/-- The anonymous union of `Neighbor`: at any moment the storage holds one
of the two overlapping members. -/
inductive NeighborPayload where
  | valid : ValidInfo → NeighborPayload
  | pending : PendingInfo → NeighborPayload
  deriving DecidableEq, Repr

/-- The `Neighbor` class of topology.hpp, field for field.  Opaque
collaborator types (`Mac::ExtAddress`, `LinkQualityInfo`) are embedded as
numbers; the bitfields `mMode : 4` and `mState : 3` hold their decoded
values. -/
structure Neighbor where
  mMacAddr : Nat
  mLastHeard : Nat
  payload : NeighborPayload
  mKeySequence : Nat
  mState : State
  mMode : Nat
  mDataRequest : Bool
  mLinkFailures : Nat
  mLinkInfo : Nat
  deriving DecidableEq, Repr

/-- `Neighbor::IsStateValidOrRestoring`, from topology.hpp lines 104-114:
a switch on `mState` returning true for `kStateValid`, `kStateRestored`
and `kStateChildUpdateRequest`, false in the default branch. -/
def Neighbor.IsStateValidOrRestoring (n : Neighbor) : Bool :=
  match n.mState with
  | .kStateValid => true
  | .kStateRestored => true
  | .kStateChildUpdateRequest => true
  | _ => false

/-- The method is `const`: calling it yields its boolean result and leaves
the object as it was. -/
def Neighbor.callIsStateValidOrRestoring (n : Neighbor) : Bool × Neighbor :=
  (n.IsStateValidOrRestoring, n)

/-- The two possible readings of the anonymous union in `Neighbor`. -/
inductive PayloadInterp where
  | attached
  | pending
  deriving DecidableEq, Repr

/-- The states in which the attached payload (`mValid`) is the meaningful
union member: `kStateValid`, `kStateRestored`, `kStateChildUpdateRequest`. -/
def State.isAttachedPhase : State → Bool
  | .kStateValid => true
  | .kStateRestored => true
  | .kStateChildUpdateRequest => true
  | _ => false

/-- The states in which the pending payload (`mPending`) is the meaningful
union member: `kStateParentRequest`, `kStateChildIdRequest`,
`kStateLinkRequest`. -/
def State.isPendingPhase : State → Bool
  | .kStateParentRequest => true
  | .kStateChildIdRequest => true
  | .kStateLinkRequest => true
  | _ => false

/-- Modelled from the spec: which interpretation of the state-dependent
payload union is the valid one.  The spec's invariant section fixes it
solely from `state`: Valid/Restored/ChildUpdateRequest select the attached
payload, every other (non-attached) state selects the pending payload.
The selection reads nothing but the state field. -/
def Neighbor.validInterp (n : Neighbor) : PayloadInterp :=
  if n.mState.isAttachedPhase then .attached else .pending

/-- The two classes of secured frames, each checked against its own
stored counter: link-layer frames and MLE frames. -/
inductive FrameClass where
  | link
  | mle
  deriving DecidableEq, Repr

/-- `ValidInfo.counterOf` picks the replay-protection counter a frame class
is checked against: the link frame counter or the MLE frame counter. -/
def ValidInfo.counterOf (v : ValidInfo) : FrameClass → Nat
  | .link => v.mLinkFrameCounter
  | .mle => v.mMleFrameCounter

/-- Replace the counter of one frame class, keeping the other fields. -/
def ValidInfo.withCounter (v : ValidInfo) : FrameClass → Nat → ValidInfo
  | .link, c => { v with mLinkFrameCounter := c }
  | .mle, c => { v with mMleFrameCounter := c }

/-- Modelled from the spec: security replay protection.  A frame from an
attached peer is accepted only when the counter it presents is strictly
greater than the stored counter for its frame class; on acceptance the
stored counter and `mLastHeard` are updated.  Immediately after a key
sequence rollover the stored value is replaced rather than compared.  A
counter at or below the stored value is rejected as a replay and the
entry is returned untouched. -/
def Neighbor.processFrame (n : Neighbor) (cls : FrameClass) (counter : Nat)
    (keyRollover : Bool) (now : Nat) : Bool × Neighbor :=
  match n.payload with
  | .pending _ => (false, n)
  | .valid v =>
    if keyRollover then
      (true, { n with payload := .valid (v.withCounter cls counter), mLastHeard := now })
    else if v.counterOf cls < counter then
      (true, { n with payload := .valid (v.withCounter cls counter), mLastHeard := now })
    else
      (false, n)

/-- The `Router` class of topology.hpp: a `Neighbor` plus next hop, the
2-bit `mLinkQualityOut` bitfield, the 4-bit `mCost` bitfield, and the
`mAllocated`/`mReclaimDelay` slot flags. -/
structure Router extends Neighbor where
  mNextHop : Nat
  mLinkQualityOut : Nat
  mCost : Nat
  mAllocated : Bool
  mReclaimDelay : Bool
  deriving DecidableEq, Repr

/-- Storing into the 4-bit bitfield `mCost : 4` keeps the low 4 bits
(C++ unsigned bitfield assignment reduces modulo 2^4). -/
def Router.setCost (r : Router) (v : Nat) : Router :=
  { r with mCost := v % 16 }

/-- Storing into the 2-bit bitfield `mLinkQualityOut : 2` keeps the low
2 bits (C++ unsigned bitfield assignment reduces modulo 2^2). -/
def Router.setLinkQualityOut (r : Router) (v : Nat) : Router :=
  { r with mLinkQualityOut := v % 4 }

/-- The `mIndirectSendInfo` struct of `Child`: metadata of the current
outbound indirect message.  Messages (`Message *`) are embedded as numeric
handles. -/
structure IndirectSendInfo where
  mFrameCounter : Nat
  mMessage : Nat
  mFragmentOffset : Nat
  mKeyId : Nat
  mTxAttemptCounter : Nat
  mDataSequenceNumber : Nat
  deriving DecidableEq, Repr

/-- Modelled from the spec: the per-Child indirect delivery state driven
by the Indirect Delivery Manager.  `inflight` is `mIndirectSendInfo`
(none when no message is in flight, i.e. `mMessage` is null), `queued`
holds the further pending messages in enqueue order, and
`mQueuedIndirectMessageCnt` is the `Child` field of that name. -/
structure ChildDelivery where
  inflight : Option IndirectSendInfo
  queued : List Nat
  mQueuedIndirectMessageCnt : Nat
  deriving DecidableEq, Repr

/-- The asynchronous events the Indirect Delivery Manager consumes.
`enqueue` carries the message handle and the security frame counter and
key id snapshotted from the device at that moment; `txSuccess` and
`txFailure` are the transmit-complete callbacks and carry the device
counter and key id used if a queued message is promoted to in-flight. -/
inductive DeliveryEvent where
  | enqueue (msg : Nat) (devFc : Nat) (devKeyId : Nat)
  | txSuccess (devFc : Nat) (devKeyId : Nat)
  | txFailure (devFc : Nat) (devKeyId : Nat)
  deriving DecidableEq, Repr

/-- The message handle an event enqueues, when it is an enqueue event. -/
def DeliveryEvent.enqueued : DeliveryEvent → Option Nat
  | .enqueue m _ _ => some m
  | _ => none

/-- Modelled from the spec: promoting the next queued message (if any) to
in-flight, resetting its attempt counter and fragment offset and
snapshotting the device frame counter and key id. -/
def ChildDelivery.promote (s : ChildDelivery) (devFc devKeyId : Nat) : ChildDelivery :=
  match s.queued with
  | [] => { s with inflight := none }
  | m :: rest =>
    { s with inflight := some ⟨devFc, m, 0, devKeyId, 0, 0⟩,
             queued := rest,
             mQueuedIndirectMessageCnt := s.mQueuedIndirectMessageCnt - 1 }

/-- Modelled from the spec: one step of the indirect delivery protocol
(section 4.4).  Enqueue makes the message in-flight when the slot is
empty, else appends it to the queue and increments the queued count.
Transmit success clears the slot and promotes the next queued message.
Transmit failure increments the attempt counter; once the retry cap is
reached the message is dropped and the next one is promoted. -/
def ChildDelivery.step (cap : Nat) (s : ChildDelivery) : DeliveryEvent → ChildDelivery
  | .enqueue m devFc devKeyId =>
    match s.inflight with
    | none => { s with inflight := some ⟨devFc, m, 0, devKeyId, 0, 0⟩ }
    | some _ =>
      { s with queued := s.queued ++ [m],
               mQueuedIndirectMessageCnt := s.mQueuedIndirectMessageCnt + 1 }
  | .txSuccess devFc devKeyId =>
    match s.inflight with
    | none => s
    | some _ => s.promote devFc devKeyId
  | .txFailure devFc devKeyId =>
    match s.inflight with
    | none => s
    | some info =>
      if info.mTxAttemptCounter + 1 < cap then
        { s with inflight := some { info with mTxAttemptCounter := info.mTxAttemptCounter + 1 } }
      else
        s.promote devFc devKeyId

/-- Run a sequence of delivery events from a state. -/
def ChildDelivery.run (cap : Nat) (s : ChildDelivery) (evs : List DeliveryEvent) : ChildDelivery :=
  evs.foldl (ChildDelivery.step cap) s

/-- The handle of the in-flight message, if any. -/
def ChildDelivery.inflightMsg (s : ChildDelivery) : Option Nat :=
  s.inflight.map IndirectSendInfo.mMessage

/-- How many indirect messages are in flight for this child: 0 or 1 by
construction of the single `mIndirectSendInfo` slot. -/
def ChildDelivery.inflightCount (s : ChildDelivery) : Nat :=
  match s.inflight with
  | none => 0
  | some _ => 1

/-- All messages currently held for the child: the in-flight one (if any)
followed by the queued ones, in delivery order. -/
def ChildDelivery.msgs (s : ChildDelivery) : List Nat :=
  (match s.inflight with
   | none => []
   | some info => [info.mMessage]) ++ s.queued

/-- The delivery-state invariant: the queued count equals the number of
messages pending beyond the in-flight one, and the queue is empty
whenever nothing is in flight (a queued message would have been
promoted). -/
def ChildDelivery.WF (s : ChildDelivery) : Prop :=
  s.mQueuedIndirectMessageCnt = s.queued.length ∧
    (s.inflight = none → s.queued = [])

/-- Freshness of a run: an enqueue event never re-enqueues a message
handle already held for the child. -/
def FreshRun (cap : Nat) : ChildDelivery → List DeliveryEvent → Prop
  | _, [] => True
  | s, e :: rest =>
    (∀ m, e.enqueued = some m → m ∉ s.msgs) ∧ FreshRun cap (s.step cap e) rest

/-- Modelled from the spec: registering an IPv6 address for a Child.  The
`mIp6Address` array holds an ordered set of at most `maxAddrs`
(`kMaxIp6AddressPerChild`, a deployment-configured constant) addresses
with duplicates forbidden: an address already present is not added again,
and an address beyond the capacity is refused.  Addresses are embedded as
numbers. -/
def addIp6Address (maxAddrs : Nat) (addrs : List Nat) (a : Nat) : Option (List Nat) :=
  if a ∈ addrs then some addrs
  else if addrs.length < maxAddrs then some (addrs ++ [a])
  else none

/-- A router table slot's allocation flags, `mAllocated` and
`mReclaimDelay` from the `Router` class. -/
structure RouterSlot where
  mAllocated : Bool
  mReclaimDelay : Bool
  deriving DecidableEq, Repr

/-- A router slot is free for allocation when it is neither in use nor
held back in the reclaim-delay window. -/
def RouterSlot.isFree (r : RouterSlot) : Bool := !r.mAllocated && !r.mReclaimDelay

/-- Modelled from the spec: `Allocate` for the router table.  Returns the
index of the first free slot with that slot marked allocated, or `none`
(the `TableFull` error) with the table unchanged when no slot is free. -/
def allocateRouter : List RouterSlot → Option Nat × List RouterSlot
  | [] => (none, [])
  | r :: rest =>
    if r.isFree then (some 0, { r with mAllocated := true } :: rest)
    else
      match allocateRouter rest with
      | (some i, rest') => (some (i + 1), r :: rest')
      | (none, rest') => (none, r :: rest')

/-- Modelled from the spec: `Release` for a router entry.  The slot leaves
use but enters the reclaim-delay window before it may be reused. -/
def releaseRouter (tbl : List RouterSlot) (i : Nat) : List RouterSlot :=
  tbl.set i ⟨false, true⟩

/-- Modelled from the spec: the reclaim-delay period elapsing clears the
hold on vacated router slots. -/
def elapseReclaimDelay (tbl : List RouterSlot) : List RouterSlot :=
  tbl.map fun r => { r with mReclaimDelay := false }

/-- A child slot is free when its entry is in state `kStateInvalid` (no
tracked relationship); child slots have no reclaim delay. -/
def childSlotFree (s : State) : Bool :=
  match s with
  | .kStateInvalid => true
  | _ => false

/-- Modelled from the spec: `Allocate` for the child table.  Returns the
index of the first free slot (the new entry is handed out in state
Invalid), or `none` (the `TableFull` error) with the table unchanged. -/
def allocateChild : List State → Option Nat × List State
  | [] => (none, [])
  | s :: rest =>
    if childSlotFree s then (some 0, s :: rest)
    else
      match allocateChild rest with
      | (some i, rest') => (some (i + 1), s :: rest')
      | (none, rest') => (none, s :: rest')

/-- Modelled from the spec: `Release` for a child entry demotes it to
`kStateInvalid`, reclaiming the slot immediately. -/
def releaseChild (tbl : List State) (i : Nat) : List State :=
  tbl.set i State.kStateInvalid

end Thread

namespace Thread

/-- C1: `IsStateValidOrRestoring()` returns true exactly when the state is
`kStateValid`, `kStateRestored` or `kStateChildUpdateRequest`, and false
for every other state. -/
theorem isStateValidOrRestoring_iff (n : Neighbor) :
    n.IsStateValidOrRestoring = true ↔
      (n.mState = State.kStateValid ∨ n.mState = State.kStateRestored ∨
       n.mState = State.kStateChildUpdateRequest) := by
  cases h : n.mState <;> simp [Neighbor.IsStateValidOrRestoring, h]

/-- C9: the result of `IsStateValidOrRestoring` depends only on `mState`
(two neighbors with equal states get equal results), and the `const` call
leaves every field of the neighbor unchanged. -/
theorem isStateValidOrRestoring_state_only (n₁ n₂ : Neighbor)
    (h : n₁.mState = n₂.mState) :
    n₁.callIsStateValidOrRestoring.1 = n₂.callIsStateValidOrRestoring.1 ∧
      n₁.callIsStateValidOrRestoring.2 = n₁ := by
  refine ⟨?_, rfl⟩
  simp [Neighbor.callIsStateValidOrRestoring, Neighbor.IsStateValidOrRestoring, h]

/-- Witness for C9: two concrete neighbors sharing only the state agree. -/
theorem isStateValidOrRestoring_state_only_witness :
    (Neighbor.mk 1 10 (.valid ⟨5, 6, 7⟩) 0 .kStateValid 3 true 2 9).callIsStateValidOrRestoring.1 =
      (Neighbor.mk 2 20 (.pending ⟨[1], 1⟩) 4 .kStateValid 0 false 0 0).callIsStateValidOrRestoring.1 ∧
    (Neighbor.mk 1 10 (.valid ⟨5, 6, 7⟩) 0 .kStateValid 3 true 2 9).callIsStateValidOrRestoring.2 =
      Neighbor.mk 1 10 (.valid ⟨5, 6, 7⟩) 0 .kStateValid 3 true 2 9 :=
  isStateValidOrRestoring_state_only
    (Neighbor.mk 1 10 (.valid ⟨5, 6, 7⟩) 0 .kStateValid 3 true 2 9)
    (Neighbor.mk 2 20 (.pending ⟨[1], 1⟩) 4 .kStateValid 0 false 0 0) rfl

/-- C10: every declared state enumerator (values 0..6) fits the 3-bit
`mState` bitfield: the store/read round-trip is the identity. -/
theorem state_bitfield_roundtrip (s : State) :
    State.decode s.store3 = some s := by
  cases s <;> rfl

/-- No state is both an attached-phase and a pending-phase state. -/
lemma attachedPhase_pendingPhase_disjoint (s : State) :
    ¬(s.isAttachedPhase = true ∧ s.isPendingPhase = true) := by
  cases s <;> simp [State.isAttachedPhase, State.isPendingPhase]

/-- A pending-phase state is not an attached-phase state. -/
lemma pendingPhase_not_attachedPhase (s : State) :
    s.isPendingPhase = true → s.isAttachedPhase = false := by
  cases s <;> simp [State.isAttachedPhase, State.isPendingPhase]

/-- C2: which payload interpretation is valid is a function of the state
field alone; states Valid/Restored/ChildUpdateRequest select the attached
payload, states ParentRequest/ChildIdRequest/LinkRequest select the
pending payload, and no state belongs to both phases, so the two
interpretations are never both valid at once. -/
theorem validInterp_determined_by_state (n₁ n₂ : Neighbor)
    (h : n₁.mState = n₂.mState) :
    n₁.validInterp = n₂.validInterp ∧
      (n₁.mState.isAttachedPhase = true → n₁.validInterp = PayloadInterp.attached) ∧
      (n₁.mState.isPendingPhase = true → n₁.validInterp = PayloadInterp.pending) ∧
      ¬(n₁.mState.isAttachedPhase = true ∧ n₁.mState.isPendingPhase = true) := by
  refine ⟨?_, ?_, ?_, ?_⟩
  · simp [Neighbor.validInterp, h]
  · intro ha
    simp [Neighbor.validInterp, ha]
  · intro hp
    simp [Neighbor.validInterp, pendingPhase_not_attachedPhase _ hp]
  · exact attachedPhase_pendingPhase_disjoint n₁.mState

/-- Witness for C2: two concrete neighbors in state `kStateValid`. -/
theorem validInterp_determined_by_state_witness :
    (Neighbor.mk 1 10 (.valid ⟨5, 6, 7⟩) 0 .kStateValid 3 true 2 9).validInterp =
        (Neighbor.mk 2 0 (.valid ⟨0, 0, 0⟩) 1 .kStateValid 0 false 0 0).validInterp ∧
      ((Neighbor.mk 1 10 (.valid ⟨5, 6, 7⟩) 0 .kStateValid 3 true 2 9).mState.isAttachedPhase = true →
        (Neighbor.mk 1 10 (.valid ⟨5, 6, 7⟩) 0 .kStateValid 3 true 2 9).validInterp = PayloadInterp.attached) ∧
      ((Neighbor.mk 1 10 (.valid ⟨5, 6, 7⟩) 0 .kStateValid 3 true 2 9).mState.isPendingPhase = true →
        (Neighbor.mk 1 10 (.valid ⟨5, 6, 7⟩) 0 .kStateValid 3 true 2 9).validInterp = PayloadInterp.pending) ∧
      ¬((Neighbor.mk 1 10 (.valid ⟨5, 6, 7⟩) 0 .kStateValid 3 true 2 9).mState.isAttachedPhase = true ∧
        (Neighbor.mk 1 10 (.valid ⟨5, 6, 7⟩) 0 .kStateValid 3 true 2 9).mState.isPendingPhase = true) :=
  validInterp_determined_by_state
    (Neighbor.mk 1 10 (.valid ⟨5, 6, 7⟩) 0 .kStateValid 3 true 2 9)
    (Neighbor.mk 2 0 (.valid ⟨0, 0, 0⟩) 1 .kStateValid 0 false 0 0) rfl

/-- C3: for an attached neighbor, a frame whose counter is at or below the
stored counter for its class, with no key-sequence rollover, is rejected
and the entry is returned exactly as it was: `mLastHeard`, `mMode` and
`mLinkInfo` in particular are unmodified. -/
theorem replay_rejected_no_side_effect (n : Neighbor) (v : ValidInfo)
    (cls : FrameClass) (c now : Nat)
    (_hatt : n.IsStateValidOrRestoring = true)
    (hp : n.payload = NeighborPayload.valid v)
    (hle : c ≤ v.counterOf cls) :
    n.processFrame cls c false now = (false, n) ∧
      (n.processFrame cls c false now).2.mLastHeard = n.mLastHeard ∧
      (n.processFrame cls c false now).2.mMode = n.mMode ∧
      (n.processFrame cls c false now).2.mLinkInfo = n.mLinkInfo := by
  have hrej : n.processFrame cls c false now = (false, n) := by
    unfold Neighbor.processFrame
    rw [hp]
    simp [Nat.not_lt_of_le hle]
  exact ⟨hrej, by rw [hrej], by rw [hrej], by rw [hrej]⟩

/-- Witness for C3: a concrete attached neighbor rejects a replayed link
frame counter. -/
theorem replay_rejected_no_side_effect_witness :
    (Neighbor.mk 1 10 (.valid ⟨5, 6, 7⟩) 0 .kStateValid 3 true 2 9).processFrame
        FrameClass.link 5 false 99 =
        (false, Neighbor.mk 1 10 (.valid ⟨5, 6, 7⟩) 0 .kStateValid 3 true 2 9) ∧
      ((Neighbor.mk 1 10 (.valid ⟨5, 6, 7⟩) 0 .kStateValid 3 true 2 9).processFrame
        FrameClass.link 5 false 99).2.mLastHeard =
        (Neighbor.mk 1 10 (.valid ⟨5, 6, 7⟩) 0 .kStateValid 3 true 2 9).mLastHeard ∧
      ((Neighbor.mk 1 10 (.valid ⟨5, 6, 7⟩) 0 .kStateValid 3 true 2 9).processFrame
        FrameClass.link 5 false 99).2.mMode =
        (Neighbor.mk 1 10 (.valid ⟨5, 6, 7⟩) 0 .kStateValid 3 true 2 9).mMode ∧
      ((Neighbor.mk 1 10 (.valid ⟨5, 6, 7⟩) 0 .kStateValid 3 true 2 9).processFrame
        FrameClass.link 5 false 99).2.mLinkInfo =
        (Neighbor.mk 1 10 (.valid ⟨5, 6, 7⟩) 0 .kStateValid 3 true 2 9).mLinkInfo :=
  replay_rejected_no_side_effect
    (Neighbor.mk 1 10 (.valid ⟨5, 6, 7⟩) 0 .kStateValid 3 true 2 9)
    ⟨5, 6, 7⟩ FrameClass.link 5 99 rfl rfl (by decide)

/-- C5: storing any value into `mCost` keeps it modulo 2^4 and the stored
value never exceeds 15; storing any value into `mLinkQualityOut` keeps it
modulo 2^2 and the stored value never exceeds 3. -/
theorem router_bitfield_bounds (r : Router) (v w : Nat) :
    (r.setCost v).mCost = v % 16 ∧ (r.setCost v).mCost ≤ 15 ∧
      (r.setLinkQualityOut w).mLinkQualityOut = w % 4 ∧
      (r.setLinkQualityOut w).mLinkQualityOut ≤ 3 := by
  refine ⟨rfl, ?_, rfl, ?_⟩
  · exact Nat.le_of_lt_succ (Nat.mod_lt _ (by omega))
  · exact Nat.le_of_lt_succ (Nat.mod_lt _ (by omega))

/-- The single `mIndirectSendInfo` slot holds at most one message. -/
lemma inflightCount_le_one (s : ChildDelivery) : s.inflightCount ≤ 1 := by
  cases h : s.inflight <;> simp [ChildDelivery.inflightCount, h]

/-- Every delivery step preserves the delivery-state invariant. -/
lemma step_preserves_WF (cap : Nat) (s : ChildDelivery) (e : DeliveryEvent)
    (h : s.WF) : (s.step cap e).WF := by
  obtain ⟨hcnt, hempty⟩ := h
  cases e with
  | enqueue m devFc devKeyId =>
    cases hin : s.inflight <;>
      simp_all [ChildDelivery.step, ChildDelivery.WF]
  | txSuccess devFc devKeyId =>
    cases hin : s.inflight with
    | none => simp_all [ChildDelivery.step, ChildDelivery.WF]
    | some info =>
      cases hq : s.queued <;>
        simp_all [ChildDelivery.step, ChildDelivery.promote, ChildDelivery.WF]
  | txFailure devFc devKeyId =>
    cases hin : s.inflight with
    | none => simp_all [ChildDelivery.step, ChildDelivery.WF]
    | some info =>
      simp only [ChildDelivery.step, hin]
      split
      · simp_all [ChildDelivery.WF]
      · cases hq : s.queued <;>
          simp_all [ChildDelivery.promote, ChildDelivery.WF]

/-- C4: every Child holds at most one in-flight indirect message (its one
`mIndirectSendInfo` slot), and `mQueuedIndirectMessageCnt` always equals
the number of further messages pending beyond the in-flight one: the
invariant holds after any protocol step taken from an invariant state. -/
theorem child_single_inflight_queued_count (cap : Nat) (s : ChildDelivery)
    (e : DeliveryEvent) (h : s.WF) :
    (s.step cap e).WF ∧ (s.step cap e).inflightCount ≤ 1 ∧
      (s.step cap e).mQueuedIndirectMessageCnt = (s.step cap e).queued.length :=
  ⟨step_preserves_WF cap s e h, inflightCount_le_one _,
    (step_preserves_WF cap s e h).1⟩

/-- Witness for C4: a concrete child with one in-flight and one queued
message takes an enqueue step. -/
theorem child_single_inflight_queued_count_witness :
    ((ChildDelivery.mk (some ⟨1, 42, 0, 2, 0, 0⟩) [7] 1).step 4
        (.enqueue 9 5 1)).WF ∧
      ((ChildDelivery.mk (some ⟨1, 42, 0, 2, 0, 0⟩) [7] 1).step 4
        (.enqueue 9 5 1)).inflightCount ≤ 1 ∧
      ((ChildDelivery.mk (some ⟨1, 42, 0, 2, 0, 0⟩) [7] 1).step 4
        (.enqueue 9 5 1)).mQueuedIndirectMessageCnt =
      ((ChildDelivery.mk (some ⟨1, 42, 0, 2, 0, 0⟩) [7] 1).step 4
        (.enqueue 9 5 1)).queued.length :=
  child_single_inflight_queued_count 4 (ChildDelivery.mk (some ⟨1, 42, 0, 2, 0, 0⟩) [7] 1)
    (.enqueue 9 5 1) ⟨rfl, fun h => Option.noConfusion h⟩

/-- A delivery step either leaves the held messages unchanged, appends the
newly enqueued one at the back, or removes the front one. -/
lemma msgs_step (cap : Nat) (s : ChildDelivery) (e : DeliveryEvent) (hWF : s.WF) :
    (s.step cap e).msgs = s.msgs ∨
      (∃ m, e.enqueued = some m ∧ (s.step cap e).msgs = s.msgs ++ [m]) ∨
      (s.step cap e).msgs = s.msgs.tail := by
  obtain ⟨hcnt, hempty⟩ := hWF
  cases e with
  | enqueue m devFc devKeyId =>
    right; left
    refine ⟨m, rfl, ?_⟩
    cases hin : s.inflight with
    | none =>
      have hq := hempty hin
      simp [ChildDelivery.step, ChildDelivery.msgs, hin, hq]
    | some info =>
      simp [ChildDelivery.step, ChildDelivery.msgs, hin]
  | txSuccess devFc devKeyId =>
    cases hin : s.inflight with
    | none => left; simp [ChildDelivery.step, hin]
    | some info =>
      right; right
      cases hq : s.queued <;>
        simp [ChildDelivery.step, ChildDelivery.promote, ChildDelivery.msgs, hin, hq]
  | txFailure devFc devKeyId =>
    cases hin : s.inflight with
    | none => left; simp [ChildDelivery.step, hin]
    | some info =>
      simp only [ChildDelivery.step, hin]
      split
      · left; simp [ChildDelivery.msgs, hin]
      · right; right
        cases hq : s.queued <;>
          simp [ChildDelivery.promote, ChildDelivery.msgs, hin, hq]

/-- Removing the front message keeps a nodup pair in order unless it
removes the first element of the pair. -/
lemma sublist_pair_tail {m₁ m₂ : Nat} {l : List Nat} (hnd : l.Nodup)
    (h : List.Sublist [m₁, m₂] l) : List.Sublist [m₁, m₂] l.tail ∨ m₁ ∉ l.tail := by
  cases l with
  | nil => simp at h
  | cons a t =>
    cases h with
    | cons _ h' => exact Or.inl h'
    | cons₂ _ h' =>
      right
      simpa using (List.nodup_cons.mp hnd).1

/-- In a nodup list headed by `m₂`, no distinct `m₁` precedes `m₂`. -/
lemma sublist_pair_not_head {m₁ m₂ : Nat} {l : List Nat}
    (hnd : (m₂ :: l).Nodup) (hne : m₁ ≠ m₂) : ¬(List.Sublist [m₁, m₂] (m₂ :: l)) := by
  intro h
  cases h with
  | cons _ h' =>
    exact (List.nodup_cons.mp hnd).1 (h'.subset (by simp))
  | cons₂ _ h' => exact hne rfl

/-- A delivery step keeps the held messages free of duplicate handles,
given the freshness of any enqueued handle. -/
lemma nodup_step (cap : Nat) (s : ChildDelivery) (e : DeliveryEvent)
    (hWF : s.WF) (hnd : s.msgs.Nodup)
    (hfresh : ∀ m, e.enqueued = some m → m ∉ s.msgs) :
    (s.step cap e).msgs.Nodup := by
  rcases msgs_step cap s e hWF with h | ⟨m, hm, h⟩ | h
  · rw [h]; exact hnd
  · rw [h]
    have hnm := hfresh m hm
    simp only [List.nodup_append, List.nodup_cons]
    exact ⟨hnd, by simp, by simpa [List.disjoint_singleton] using hnm⟩
  · rw [h]
    exact List.Nodup.sublist (List.tail_sublist _) hnd

/-- A delivery step preserves the relative order of two distinct messages:
either the pair keeps its order among the held messages or the first one
has left the child. -/
lemma pair_order_step (cap : Nat) (s : ChildDelivery) (e : DeliveryEvent)
    (m₁ m₂ : Nat) (hWF : s.WF) (hnd : s.msgs.Nodup)
    (hno : e.enqueued ≠ some m₁)
    (hP : List.Sublist [m₁, m₂] s.msgs ∨ m₁ ∉ s.msgs) :
    List.Sublist [m₁, m₂] (s.step cap e).msgs ∨ m₁ ∉ (s.step cap e).msgs := by
  rcases msgs_step cap s e hWF with h | ⟨m, hm, h⟩ | h
  · rw [h]; exact hP
  · rw [h]
    rcases hP with hsub | hnot
    · exact Or.inl (hsub.trans (List.sublist_append_left _ _))
    · right
      have hmne : m ≠ m₁ := fun hc => hno (hc ▸ hm)
      simp only [List.mem_append, List.mem_singleton]
      rintro (hmem | hmem)
      · exact hnot hmem
      · exact hmne hmem.symm
  · rw [h]
    rcases hP with hsub | hnot
    · exact sublist_pair_tail hnd hsub
    · exact Or.inr fun hmem => hnot (List.mem_of_mem_tail hmem)

/-- The FIFO induction: along any fresh run that never re-enqueues `m₁`,
the pair order is preserved until `m₁` leaves, so when `m₂` is in flight,
`m₁` is gone. -/
lemma fifo_run_aux (cap m₁ m₂ : Nat) (evs : List DeliveryEvent) :
    ∀ s : ChildDelivery, s.WF → s.msgs.Nodup → FreshRun cap s evs →
      (∀ e ∈ evs, e.enqueued ≠ some m₁) → m₁ ≠ m₂ →
      (List.Sublist [m₁, m₂] s.msgs ∨ m₁ ∉ s.msgs) →
      (s.run cap evs).inflightMsg = some m₂ → m₁ ∉ (s.run cap evs).msgs := by
  induction evs with
  | nil =>
    intro s _ hnd _ _ hne hP hin
    simp only [ChildDelivery.run, List.foldl_nil] at hin ⊢
    rcases hP with hsub | hnot
    · exfalso
      cases h : s.inflight with
      | none => simp [ChildDelivery.inflightMsg, h] at hin
      | some info =>
        have hmsg : s.msgs = m₂ :: s.queued := by
          have : info.mMessage = m₂ := by
            simpa [ChildDelivery.inflightMsg, h] using hin
          simp [ChildDelivery.msgs, h, this]
        rw [hmsg] at hsub hnd
        exact sublist_pair_not_head hnd hne hsub
    · exact hnot
  | cons e rest ih =>
    intro s hWF hnd hfr hno hne hP hin
    have hfr1 : ∀ m, e.enqueued = some m → m ∉ s.msgs := hfr.1
    have hfr2 : FreshRun cap (s.step cap e) rest := hfr.2
    have hrun : s.run cap (e :: rest) = (s.step cap e).run cap rest := rfl
    rw [hrun] at hin ⊢
    exact ih (s.step cap e) (step_preserves_WF cap s e hWF)
      (nodup_step cap s e hWF hnd hfr1) hfr2
      (fun e' he' => hno e' (List.mem_cons_of_mem _ he'))
      hne
      (pair_order_step cap s e m₁ m₂ hWF hnd (hno e (List.mem_cons_self _ _)) hP)
      hin

/-- C7: queued indirect messages go out in FIFO order.  If `m₁` is held
ahead of `m₂` for a Child, then along any run of delivery events that
never re-enqueues a held handle nor re-enqueues `m₁`, whenever `m₂` has
become the in-flight (transmitting) message, `m₁` has already been
delivered or dropped by retry exhaustion: it is no longer held. -/
theorem indirect_delivery_fifo (cap m₁ m₂ : Nat) (evs : List DeliveryEvent)
    (s : ChildDelivery) (hWF : s.WF) (hnd : s.msgs.Nodup)
    (hfr : FreshRun cap s evs) (hno : ∀ e ∈ evs, e.enqueued ≠ some m₁)
    (hne : m₁ ≠ m₂) (horder : List.Sublist [m₁, m₂] s.msgs)
    (hin : (s.run cap evs).inflightMsg = some m₂) :
    m₁ ∉ (s.run cap evs).msgs :=
  fifo_run_aux cap m₁ m₂ evs s hWF hnd hfr hno hne (Or.inl horder) hin

/-- Witness for C7: message 1 in flight ahead of queued message 2; after a
successful transmission, 2 is in flight and 1 is gone. -/
theorem indirect_delivery_fifo_witness :
    1 ∉ ((ChildDelivery.mk (some ⟨0, 1, 0, 0, 0, 0⟩) [2] 1).run 4
      [DeliveryEvent.txSuccess 9 9]).msgs :=
  indirect_delivery_fifo 4 1 2 [DeliveryEvent.txSuccess 9 9]
    (ChildDelivery.mk (some ⟨0, 1, 0, 0, 0, 0⟩) [2] 1)
    ⟨rfl, fun h => Option.noConfusion h⟩
    (by simp [ChildDelivery.msgs])
    ⟨fun m hm => by simp [DeliveryEvent.enqueued] at hm, trivial⟩
    (by intro e he; simp at he; subst he; simp [DeliveryEvent.enqueued])
    (by decide)
    (by simp [ChildDelivery.msgs])
    rfl

/-- C6: registering an address keeps the Child's registered-address set
within `kMaxIp6AddressPerChild` and free of duplicates. -/
theorem child_addresses_bounded_nodup (maxAddrs : Nat) (addrs : List Nat)
    (a : Nat) (l : List Nat) (hlen : addrs.length ≤ maxAddrs)
    (hnd : addrs.Nodup) (hadd : addIp6Address maxAddrs addrs a = some l) :
    l.length ≤ maxAddrs ∧ l.Nodup := by
  unfold addIp6Address at hadd
  split at hadd
  · cases hadd
    exact ⟨hlen, hnd⟩
  · split at hadd
    · cases hadd
      constructor
      · simpa using by omega
      · simp only [List.nodup_append, List.nodup_cons]
        refine ⟨hnd, by simp, ?_⟩
        intro x hx hx'
        simp only [List.mem_singleton] at hx'
        subst hx'
        exact absurd hx (by assumption)
    · cases hadd

/-- Witness for C6: adding address 3 to the set {1, 2} with capacity 4. -/
theorem child_addresses_bounded_nodup_witness :
    ([1, 2, 3] : List Nat).length ≤ 4 ∧ ([1, 2, 3] : List Nat).Nodup :=
  child_addresses_bounded_nodup 4 [1, 2] 3 [1, 2, 3] (by decide) (by decide) rfl

/-- A router table with no free slot yields the TableFull error and the
table itself, unmodified. -/
lemma allocateRouter_full (tbl : List RouterSlot)
    (h : ∀ r ∈ tbl, r.isFree = false) : allocateRouter tbl = (none, tbl) := by
  induction tbl with
  | nil => rfl
  | cons r rest ih =>
    have hr := h r (List.mem_cons_self _ _)
    have hrest := ih fun x hx => h x (List.mem_cons_of_mem _ hx)
    simp [allocateRouter, hr, hrest]

/-- A router table with a free slot yields an allocated index. -/
lemma allocateRouter_succeeds (tbl : List RouterSlot)
    (h : ∃ r ∈ tbl, r.isFree = true) : (allocateRouter tbl).1.isSome = true := by
  induction tbl with
  | nil => simp at h
  | cons r rest ih =>
    by_cases hr : r.isFree = true
    · simp [allocateRouter, hr]
    · obtain ⟨x, hx, hfree⟩ := h
      rcases List.mem_cons.mp hx with hx | hx
      · exact absurd (hx ▸ hfree) hr
      · have hsome := ih ⟨x, hx, hfree⟩
        simp only [allocateRouter, hr, Bool.not_eq_true, if_neg]
        rcases hres : allocateRouter rest with ⟨oi, rest'⟩
        rw [hres] at hsome
        cases oi with
        | none => simp at hsome
        | some k => simp [hres]

/-- A child table with no free slot yields the TableFull error and the
table itself, unmodified. -/
lemma allocateChild_full (tbl : List State)
    (h : ∀ s ∈ tbl, childSlotFree s = false) : allocateChild tbl = (none, tbl) := by
  induction tbl with
  | nil => rfl
  | cons s rest ih =>
    have hs := h s (List.mem_cons_self _ _)
    have hrest := ih fun x hx => h x (List.mem_cons_of_mem _ hx)
    simp [allocateChild, hs, hrest]

/-- A child table with a free slot yields an allocated index. -/
lemma allocateChild_succeeds (tbl : List State)
    (h : ∃ s ∈ tbl, childSlotFree s = true) : (allocateChild tbl).1.isSome = true := by
  induction tbl with
  | nil => simp at h
  | cons s rest ih =>
    by_cases hs : childSlotFree s = true
    · simp [allocateChild, hs]
    · obtain ⟨x, hx, hfree⟩ := h
      rcases List.mem_cons.mp hx with hx | hx
      · exact absurd (hx ▸ hfree) hs
      · have hsome := ih ⟨x, hx, hfree⟩
        simp only [allocateChild, hs, Bool.not_eq_true, if_neg]
        rcases hres : allocateChild rest with ⟨oi, rest'⟩
        rw [hres] at hsome
        cases oi with
        | none => simp at hsome
        | some k => simp [hres]

/-- C8: on a table with no free slot of the requested kind, `Allocate`
returns the TableFull error with every entry unmodified (both kinds);
after `Release` of a child entry a subsequent `Allocate` succeeds
immediately, while a released router slot is not free until the
reclaim-delay period has elapsed, after which `Allocate` succeeds. -/
theorem allocate_release_reuse (rtbl : List RouterSlot) (ctbl : List State)
    (i j : Nat) (hfullR : ∀ r ∈ rtbl, r.isFree = false)
    (hfullC : ∀ s ∈ ctbl, childSlotFree s = false)
    (hi : i < rtbl.length) (hj : j < ctbl.length) :
    allocateRouter rtbl = (none, rtbl) ∧
      allocateChild ctbl = (none, ctbl) ∧
      (allocateChild (releaseChild ctbl j)).1.isSome = true ∧
      (allocateRouter (releaseRouter rtbl i)).1 = none ∧
      (allocateRouter (elapseReclaimDelay (releaseRouter rtbl i))).1.isSome = true := by
  refine ⟨allocateRouter_full rtbl hfullR, allocateChild_full ctbl hfullC, ?_, ?_, ?_⟩
  · apply allocateChild_succeeds
    refine ⟨State.kStateInvalid, ?_, rfl⟩
    have hjlen : j < (releaseChild ctbl j).length := by
      simpa [releaseChild] using hj
    have hval : (releaseChild ctbl j)[j] = State.kStateInvalid := by
      simp [releaseChild]
    exact hval ▸ List.getElem_mem hjlen
  · have hall : ∀ r ∈ releaseRouter rtbl i, r.isFree = false := by
      intro r hr
      rcases List.mem_or_eq_of_mem_set hr with hmem | heq
      · exact hfullR r hmem
      · subst heq; rfl
    rw [allocateRouter_full _ hall]
  · apply allocateRouter_succeeds
    refine ⟨⟨false, false⟩, ?_, rfl⟩
    have hmem : (⟨false, true⟩ : RouterSlot) ∈ releaseRouter rtbl i := by
      have hilen : i < (releaseRouter rtbl i).length := by
        simpa [releaseRouter] using hi
      have hval : (releaseRouter rtbl i)[i] = (⟨false, true⟩ : RouterSlot) := by
        simp [releaseRouter]
      exact hval ▸ List.getElem_mem hilen
    exact List.mem_map_of_mem _ hmem

/-- Witness for C8: a one-slot router table (allocated) and a one-slot
child table (attached child), released and reallocated. -/
theorem allocate_release_reuse_witness :
    allocateRouter [⟨true, false⟩] = (none, [⟨true, false⟩]) ∧
      allocateChild [State.kStateValid] = (none, [State.kStateValid]) ∧
      (allocateChild (releaseChild [State.kStateValid] 0)).1.isSome = true ∧
      (allocateRouter (releaseRouter [⟨true, false⟩] 0)).1 = none ∧
      (allocateRouter (elapseReclaimDelay (releaseRouter [⟨true, false⟩] 0))).1.isSome = true :=
  allocate_release_reuse [⟨true, false⟩] [State.kStateValid] 0 0
    (by intro r hr; simp at hr; subst hr; rfl)
    (by intro s hs; simp at hs; subst hs; rfl)
    (by decide) (by decide)

end Thread
